import Mathlib

/-!
Shallow embedding of the Polymarket price-collection pipeline
(`src/collect-prices.ts`, its bundled db helpers, and the SQL trigger of
`migrations/001_add_price_tracking.sql`), together with theorems settling
the specification claims about it.

Conventions:
* prices (SQL `DECIMAL(18,8)`, JS numbers) are modelled as `ℚ`, with a
  separate `JsNumber` type carrying the JS `NaN`/`Infinity` values that
  `parseFloat` can produce;
* timestamps are epoch milliseconds, `ℤ` for database values and `ℕ` for
  the simulated wall clock of a collection run;
* fallible JS values are `Option`s; a JS function that catches all its
  exceptions and returns is embedded as a total function.
-/

/-! ## JS primitives used by the quote client -/

/-- A JS number as produced by `parseFloat`: either `NaN`, one of the two
infinities, or a finite value (modelled exactly as a rational). -/
inductive JsNumber where
  | nan : JsNumber
  | posInf : JsNumber
  | negInf : JsNumber
  | num : ℚ → JsNumber
deriving DecidableEq

/-- Numeric value of a digit list, most significant first. -/
def natOfDigits (cs : List Char) : ℕ :=
  cs.foldl (fun a c => a * 10 + (c.toNat - 48)) 0

/-- Split a character list into its leading run of decimal digits and the rest. -/
def spanDigits (cs : List Char) : List Char × List Char :=
  cs.span (fun c => c.isDigit)

/-- Value of an ECMAScript exponent part (`e`/`E`, optional sign, digits) at the
head of `cs`; `0` when no well-formed exponent part is present (JS `parseFloat`
stops before an incomplete exponent). -/
def expValue (cs : List Char) : ℤ :=
  let core : List Char → Option ℤ := fun t =>
    match t with
    | '+' :: r => (if (spanDigits r).1.isEmpty then none else some ((natOfDigits (spanDigits r).1 : ℤ)))
    | '-' :: r => (if (spanDigits r).1.isEmpty then none else some (-(natOfDigits (spanDigits r).1 : ℤ)))
    | r => (if (spanDigits r).1.isEmpty then none else some ((natOfDigits (spanDigits r).1 : ℤ)))
  match cs with
  | [] => 0
  | c :: r => if c = 'e' ∨ c = 'E' then (core r).getD 0 else 0

/-- Multiply a rational by `10 ^ e` for a signed exponent `e`. -/
def applyExp (q : ℚ) (e : ℤ) : ℚ :=
  if 0 ≤ e then q * (10 : ℚ) ^ e.toNat else q / (10 : ℚ) ^ (-e).toNat

/-- Parse the unsigned decimal-literal prefix of `cs`
(`digits [. digits] [exponent]` or `. digits [exponent]`); `none` when no
digit is present, matching JS `parseFloat` returning `NaN`. -/
def parseDecimalValue (cs : List Char) : Option ℚ :=
  let intPart := (spanDigits cs).1
  let r1 := (spanDigits cs).2
  let fracPart : List Char :=
    match r1 with
    | '.' :: r => (spanDigits r).1
    | _ => []
  let r2 : List Char :=
    match r1 with
    | '.' :: r => (spanDigits r).2
    | _ => r1
  if intPart.isEmpty ∧ fracPart.isEmpty then none
  else
    some (applyExp ((natOfDigits (intPart ++ fracPart) : ℚ) / (10 : ℚ) ^ fracPart.length)
      (expValue r2))

/-- Model of the JS builtin `parseFloat`: skip leading whitespace, read an
optional sign, accept `Infinity`, otherwise parse the longest decimal-literal
prefix; no parse at all yields `NaN`. -/
def jsParseFloat (s : String) : JsNumber :=
  let cs := s.toList.dropWhile (fun c => c.isWhitespace)
  let neg : Bool :=
    match cs with
    | '-' :: _ => true
    | _ => false
  let r : List Char :=
    match cs with
    | '-' :: t => t
    | '+' :: t => t
    | t => t
  if r.take 8 = "Infinity".toList then
    (if neg then JsNumber.negInf else JsNumber.posInf)
  else
    match parseDecimalValue r with
    | none => JsNumber.nan
    | some q => JsNumber.num (if neg then -q else q)

/-! ## Quote client (`fetchTokenPrice`) -/

/-- Body of a quote-API response: the two optional price fields the client
reads (`{ price?: string; mid?: string }`). -/
structure PriceBody where
  price : Option String
  mid : Option String
deriving DecidableEq

/-- Result of one network interaction of the quote client: either the fetch
(or JSON decoding) threw — the `catch` branch — or an HTTP response with a
status code and decoded body arrived. -/
inductive ApiResult where
  | netFailure : ApiResult
  | httpResponse : ℕ → PriceBody → ApiResult
deriving DecidableEq

/-- JS `response.ok`: status in the 200–299 range. -/
def respOk (status : ℕ) : Bool :=
  decide (200 ≤ status) && decide (status < 300)

/-- JS `a || b` on the two optional string fields: a present non-empty string
is truthy and wins; an absent or empty one falls through to `b`. -/
def jsOrString (a b : Option String) : Option String :=
  match a with
  | some s => if s = "" then b else some s
  | none => b

/-- One step of `fetchTokenPrice`: either the function recurses after the
30-second rate-limit cooldown, or it finishes with `null` (`none`) or a
parsed number. -/
inductive FetchStep where
  | retryAfterCooldown : FetchStep
  | finish : Option JsNumber → FetchStep
deriving DecidableEq

/-- Decision logic of `fetchTokenPrice` on one `ApiResult`
(`src/collect-prices.ts` lines 32–64): non-ok status 429 → wait and retry;
other non-ok status → `null`; ok → read `data.price || data.mid`, `null`
when absent, else `parseFloat` of it; any thrown error → `null`. -/
def fetchStep (r : ApiResult) : FetchStep :=
  match r with
  | ApiResult.netFailure => FetchStep.finish none
  | ApiResult.httpResponse status body =>
    if !(respOk status) then
      (if status = 429 then FetchStep.retryAfterCooldown else FetchStep.finish none)
    else
      match jsOrString body.price body.mid with
      | none => FetchStep.finish none
      | some s => FetchStep.finish (some (jsParseFloat s))

/-! ## Price store (`market_prices`, `market_price_extremes`,
`update_price_extremes` from `migrations/001_add_price_tracking.sql`,
`batchInsertPrices` from the db helpers) -/

/-- A row of `market_prices` (the serial `id` and `created_at` metadata play
no role in any claim and are omitted). -/
structure PriceRow where
  condition_id : String
  token_id : String
  outcome : Option String
  price : ℚ
  timestamp : ℤ
  source : String
deriving DecidableEq

/-- The conflict target of `market_prices`: `UNIQUE(condition_id, token_id, timestamp)`. -/
def obsKey (r : PriceRow) : String × String × ℤ :=
  (r.condition_id, r.token_id, r.timestamp)

/-- The extremes key: `UNIQUE(condition_id, token_id)` on `market_price_extremes`. -/
def rowKey2 (r : PriceRow) : String × String :=
  (r.condition_id, r.token_id)

/-- A row of `market_price_extremes` (minus the serial `id`). -/
structure ExtremesRow where
  outcome : Option String
  lowest_price : ℚ
  lowest_price_timestamp : ℤ
  highest_price : ℚ
  highest_price_timestamp : ℤ
  current_price : ℚ
  current_price_timestamp : ℤ
  first_recorded : ℤ
  last_updated : ℤ
deriving DecidableEq

/-- The trigger function `update_price_extremes` applied to the previous
extremes row for the key of `r` (if any): insert a fresh row seeded with the
new price, or update with strict `<`/`>` comparisons against the stored
extreme; `current_price` is overwritten unconditionally. `now` models `NOW()`. -/
def update_price_extremes (prev : Option ExtremesRow) (r : PriceRow) (now : ℤ) : ExtremesRow :=
  match prev with
  | none =>
    { outcome := r.outcome
      lowest_price := r.price, lowest_price_timestamp := r.timestamp
      highest_price := r.price, highest_price_timestamp := r.timestamp
      current_price := r.price, current_price_timestamp := r.timestamp
      first_recorded := r.timestamp, last_updated := now }
  | some e =>
    { e with
      lowest_price := if r.price < e.lowest_price then r.price else e.lowest_price
      lowest_price_timestamp :=
        if r.price < e.lowest_price then r.timestamp else e.lowest_price_timestamp
      highest_price := if r.price > e.highest_price then r.price else e.highest_price
      highest_price_timestamp :=
        if r.price > e.highest_price then r.timestamp else e.highest_price_timestamp
      current_price := r.price, current_price_timestamp := r.timestamp
      last_updated := now }

/-- The two relations owned by the collector. `market_prices` keeps insertion
order (append-only); `market_price_extremes` is the keyed derived relation. -/
structure PriceStore where
  market_prices : List PriceRow
  market_price_extremes : String × String → Option ExtremesRow

def emptyStore : PriceStore :=
  { market_prices := [], market_price_extremes := fun _ => none }

/-- Whether a row with the given `(condition_id, token_id, timestamp)` key is
already present — the condition under which `ON CONFLICT ... DO NOTHING` skips
the incoming row. -/
def hasObsKey (st : PriceStore) (k : String × String × ℤ) : Bool :=
  st.market_prices.any (fun r => decide (obsKey r = k))

/-- Insertion of one row of the multi-row
`INSERT ... ON CONFLICT (condition_id, token_id, timestamp) DO NOTHING`:
on conflict the store is untouched and the trigger does not fire; otherwise
the row is appended and `trigger_update_price_extremes` (AFTER INSERT, FOR
EACH ROW) updates the extremes row of its key. -/
def insertPriceRow (now : ℤ) (st : PriceStore) (r : PriceRow) : PriceStore :=
  if hasObsKey st (obsKey r) then st
  else
    { market_prices := st.market_prices ++ [r]
      market_price_extremes := fun k =>
        if k = rowKey2 r then
          some (update_price_extremes (st.market_price_extremes (rowKey2 r)) r now)
        else st.market_price_extremes k }

/-- `batchInsertPrices` (db helpers, lines 266–307): no-op on an empty batch,
otherwise one multi-row insert; PostgreSQL processes the rows of one command
in order, each row conflicting against pre-existing rows and rows inserted
earlier in the same command. -/
def batchInsertPrices (now : ℤ) (st : PriceStore) (prices : List PriceRow) : PriceStore :=
  if prices.isEmpty then st else prices.foldl (insertPriceRow now) st

/-- A whole history of batch writes (each with its transaction time) applied
to the initially empty store. -/
def applyBatches (ops : List (ℤ × List PriceRow)) : PriceStore :=
  ops.foldl (fun st p => batchInsertPrices p.1 st p.2) emptyStore

/-! ## Catalog rows and the liveness queries (`getActiveGames`,
`shouldUseHighFrequency`) -/

/-- One outcome inside a market of the `games` catalog; `tokenID` is read from
JSON and may be missing (the collector skips falsy token ids). -/
structure OutcomeRow where
  title : String
  tokenID : Option String
deriving DecidableEq

/-- One market inside a game row of the catalog. -/
structure MarketRow where
  conditionId : String
  marketSlug : String
  sportsMarketType : String
  outcomes : List OutcomeRow
deriving DecidableEq

/-- One row of the external `games` catalog relation. The collector's queries
read `closed` and `start_date` only; `end_date` is carried in the catalog but
never consulted by them. -/
structure GameRow where
  id : String
  title : String
  closed : Bool
  start_date : ℤ
  end_date : Option ℤ
  markets : List MarketRow
deriving DecidableEq

/-- A game as returned by `getActiveGames`: id, title, and the moneyline
markets only. -/
structure GameOut where
  id : String
  title : String
  markets : List MarketRow
deriving DecidableEq

/-- The `WHERE` clause of `getActiveGames`: not closed, and already started
(`start_date <= NOW()`, regardless of any end date) or starting strictly
within the next 48 hours. -/
def activeGamePred (now : ℤ) (g : GameRow) : Bool :=
  !g.closed &&
    (decide (g.start_date ≤ now) ||
      (decide (now < g.start_date) && decide (g.start_date < now + 172800000)))

/-- Comparison used by `ORDER BY start_date ASC`. -/
def gameStartLE (a b : GameRow) : Prop :=
  a.start_date ≤ b.start_date

instance : DecidableRel gameStartLE :=
  fun a b => inferInstanceAs (Decidable (a.start_date ≤ b.start_date))

instance : IsTotal GameRow gameStartLE :=
  ⟨fun a b => le_total a.start_date b.start_date⟩

instance : IsTrans GameRow gameStartLE :=
  ⟨fun _ _ _ h1 h2 => le_trans h1 h2⟩

/-- The rows produced by the `getActiveGames` query before the JS mapping:
the catalog filtered by the `WHERE` clause and ordered by start time. -/
def activeGamesSorted (now : ℤ) (games : List GameRow) : List GameRow :=
  (games.filter (activeGamePred now)).insertionSort gameStartLE

/-- The JS row mapping of `getActiveGames`: keep only moneyline markets. -/
def gameToActive (g : GameRow) : GameOut :=
  { id := g.id, title := g.title
    markets := g.markets.filter (fun m => decide (m.sportsMarketType = "moneyline")) }

/-- `getActiveGames` (db helpers, lines 314–354) over an explicit catalog
relation and clock. -/
def getActiveGames (now : ℤ) (games : List GameRow) : List GameOut :=
  (activeGamesSorted now games).map gameToActive

/-- The trackable-game predicate in the words of the specification sentence
for claim C5 (not of the source): not closed, and either underway with
`start ≤ now` and (`end > now` or end absent), or starting within the next
48 hours. Used only to compare the spec's description against the code. -/
def specTrackablePred (now : ℤ) (g : GameRow) : Bool :=
  !g.closed &&
    ((decide (g.start_date ≤ now) &&
        (match g.end_date with
         | some e => decide (now < e)
         | none => true)) ||
      (decide (now < g.start_date) && decide (g.start_date < now + 172800000)))

/-- The decision record returned by `shouldUseHighFrequency`. -/
structure FreqDecision where
  highFrequency : Bool
  reason : String
  nextGameStart : Option ℤ
deriving DecidableEq

/-- SQL `MIN` over a list of values, `none` on the empty list. -/
def listMinInt (xs : List ℤ) : Option ℤ :=
  xs.foldl (fun acc x =>
    match acc with
    | none => some x
    | some m => some (min m x)) none

/-- Models `Date.toISOString` as an injective textual rendering of the
epoch-millisecond timestamp; the exact text format is irrelevant to every
claim, only that the reason string is built from the next start time. -/
def isoTimeString (t : ℤ) : String :=
  toString t

/-- The games satisfying the `WHERE` clause of `shouldUseHighFrequency`:
not closed and starting (or started) before `NOW() + 48 hours`. -/
def qualifiesFreq (now : ℤ) (g : GameRow) : Bool :=
  !g.closed && decide (g.start_date < now + 172800000)

/-- `shouldUseHighFrequency` (db helpers, lines 360–406): counts qualifying
games that have started and those starting within 10 minutes, takes the
minimum future start time, and classifies high frequency when either count
is positive. -/
def shouldUseHighFrequency (now : ℤ) (games : List GameRow) : FreqDecision :=
  let qualifying := games.filter (qualifiesFreq now)
  let activeCount := (qualifying.filter (fun g => decide (g.start_date ≤ now))).length
  let upcomingCount := (qualifying.filter (fun g =>
    decide (now < g.start_date) && decide (g.start_date ≤ now + 600000))).length
  let nextGameStart := listMinInt (qualifying.filterMap (fun g =>
    if now < g.start_date then some g.start_date else none))
  if 0 < activeCount then
    { highFrequency := true
      reason := toString activeCount ++ " active game(s) in progress"
      nextGameStart := nextGameStart }
  else if 0 < upcomingCount then
    { highFrequency := true
      reason := toString upcomingCount ++ " game(s) starting within 10 minutes"
      nextGameStart := nextGameStart }
  else
    { highFrequency := false
      reason :=
        match nextGameStart with
        | some d => "Next game starts at " ++ isoTimeString d
        | none => "No upcoming games"
      nextGameStart := nextGameStart }

/-! ## Timed simulation of a collection run (`collectPrices`)

The run is embedded with an explicit millisecond clock: `sleep(ms)` advances
the clock by `ms`, each quote request is stamped with the clock value at
which it is issued, and an oracle chooses the latency and `ApiResult` of
every request (indexed by the global request number, retries included).
The unbounded rate-limit retry recursion of `fetchTokenPrice` is unrolled
with explicit fuel; an exhausted-fuel call stops issuing requests and
returns `null`, which truncates — never adds — requests and records. -/

/-- `Math.ceil(a / b)` on naturals (`b > 0` at every use site). -/
def jsMathCeilDiv (a b : ℕ) : ℕ :=
  (a + b - 1) / b

/-- `RATE_LIMIT_PER_MINUTE = 90`. -/
def RATE_LIMIT_PER_MINUTE : ℕ := 90

/-- `DELAY_BETWEEN_REQUESTS = Math.ceil(60000 / RATE_LIMIT_PER_MINUTE)`. -/
def DELAY_BETWEEN_REQUESTS : ℕ :=
  jsMathCeilDiv 60000 RATE_LIMIT_PER_MINUTE

/-- Latency and outcome of one quote request, chosen by the environment. -/
structure OracleStep where
  latency : ℕ
  result : ApiResult

/-- One in-memory price record assembled by the run (`priceRecords` entries).
`price` is a `JsNumber` because the `price !== null` test lets `NaN` through. -/
structure CollectedRecord where
  conditionId : String
  tokenId : String
  outcome : String
  price : JsNumber
  timestamp : ℤ
  source : String
deriving DecidableEq

/-- Observable state of a simulated run: the clock, the issued requests
(issue time and token id, in order), the three counters, and the in-memory
batch. -/
structure RunState where
  clock : ℕ
  requests : List (ℕ × String)
  requestCount : ℕ
  successCount : ℕ
  failureCount : ℕ
  priceRecords : List CollectedRecord
deriving DecidableEq

/-- Timed `fetchTokenPrice`: issue the request now, let the oracle answer,
then either finish or sleep 30000 ms and retry (fuel-bounded unrolling of the
unbounded recursion). -/
def fetchTokenPriceT (oracle : ℕ → OracleStep) (tokenId : String) :
    ℕ → RunState → RunState × Option JsNumber
  | 0, st => (st, none)
  | Nat.succ fuel, st =>
    let step := oracle st.requests.length
    let st1 : RunState :=
      { st with
        clock := st.clock + step.latency
        requests := st.requests ++ [(st.clock, tokenId)] }
    match fetchStep step.result with
    | FetchStep.retryAfterCooldown =>
      fetchTokenPriceT oracle tokenId fuel { st1 with clock := st1.clock + 30000 }
    | FetchStep.finish r => (st1, r)

/-- The rate-limiting gate before a request (lines 118–124): sleep
`DELAY_BETWEEN_REQUESTS` when `requestCount > 0 && requestCount % 10 === 0`. -/
def rateGate (st : RunState) : RunState :=
  if 0 < st.requestCount && st.requestCount % 10 == 0 then
    { st with clock := st.clock + DELAY_BETWEEN_REQUESTS }
  else st

/-- Bookkeeping after a fetch returns (lines 127–145): increment
`requestCount`; on a non-null price append the record and count a success,
otherwise count a failure. -/
def recordResult (conditionId : String) (T : ℤ) (title : String) (tid : String)
    (pr : RunState × Option JsNumber) : RunState :=
  let st3 : RunState := { pr.1 with requestCount := pr.1.requestCount + 1 }
  match pr.2 with
  | some p =>
    { st3 with
      priceRecords := st3.priceRecords ++
        [{ conditionId := conditionId, tokenId := tid, outcome := title,
           price := p, timestamp := T, source := "rest" }]
      successCount := st3.successCount + 1 }
  | none => { st3 with failureCount := st3.failureCount + 1 }

/-- The body of the inner outcome loop of `collectPrices` (lines 111–149):
skip falsy token ids; apply the rate gate; fetch; record the result; sleep
`DELAY_BETWEEN_REQUESTS` after the request. -/
def processOutcome (oracle : ℕ → OracleStep) (fuel : ℕ) (conditionId : String) (T : ℤ)
    (st : RunState) (o : OutcomeRow) : RunState :=
  match o.tokenID with
  | none => st
  | some tid =>
    if tid = "" then st
    else
      let done := recordResult conditionId T o.title tid
        (fetchTokenPriceT oracle tid fuel (rateGate st))
      { done with clock := done.clock + DELAY_BETWEEN_REQUESTS }

/-- The market loop of `collectPrices`: a market with no outcomes is skipped
(with a log line), which coincides with folding over its empty outcome list. -/
def processMarket (oracle : ℕ → OracleStep) (fuel : ℕ) (T : ℤ)
    (st : RunState) (m : MarketRow) : RunState :=
  m.outcomes.foldl (processOutcome oracle fuel m.conditionId T) st

/-- The game loop of `collectPrices`. -/
def processGame (oracle : ℕ → OracleStep) (fuel : ℕ) (T : ℤ)
    (st : RunState) (g : GameOut) : RunState :=
  g.markets.foldl (processMarket oracle fuel T) st

/-- Fresh run state at wall-clock time `t0`. -/
def initRunState (t0 : ℕ) : RunState :=
  { clock := t0, requests := [], requestCount := 0
    successCount := 0, failureCount := 0, priceRecords := [] }

/-- `collectPrices` (lines 69–175) over an explicit game list (the result of
`getActiveGames`), oracle, and start time: early return on an empty game
list before any request; otherwise run the loops, then call
`batchInsertPrices` exactly once when the batch is non-empty. The second
component lists the batch-write calls actually performed. -/
def collectPricesT (oracle : ℕ → OracleStep) (fuel : ℕ) (T : ℤ) (t0 : ℕ)
    (games : List GameOut) : RunState × List (List CollectedRecord) :=
  if games.isEmpty then (initRunState t0, [])
  else
    let st := games.foldl (processGame oracle fuel T) (initRunState t0)
    (st, if st.priceRecords.isEmpty then [] else [st.priceRecords])

/-! ## Helper lemmas about the store -/

theorem hasObsKey_iff {st : PriceStore} {k : String × String × ℤ} :
    hasObsKey st k = true ↔ ∃ r ∈ st.market_prices, obsKey r = k := by
  simp [hasObsKey]

theorem insertPriceRow_market_prices (now : ℤ) (st : PriceStore) (r : PriceRow) :
    (insertPriceRow now st r).market_prices =
      if hasObsKey st (obsKey r) then st.market_prices else st.market_prices ++ [r] := by
  unfold insertPriceRow
  split
  · simp [*]
  · simp [*]

theorem insertPriceRow_noop {now : ℤ} {st : PriceStore} {r : PriceRow}
    (h : hasObsKey st (obsKey r) = true) : insertPriceRow now st r = st := by
  unfold insertPriceRow
  simp [h]

theorem hasObsKey_insert_mono {now : ℤ} {st : PriceStore} {r : PriceRow}
    {k : String × String × ℤ} (h : hasObsKey st k = true) :
    hasObsKey (insertPriceRow now st r) k = true := by
  rcases hasObsKey_iff.mp h with ⟨x, hx, hk⟩
  apply hasObsKey_iff.mpr
  refine ⟨x, ?_, hk⟩
  rw [insertPriceRow_market_prices]
  split
  · exact hx
  · exact List.mem_append_left _ hx

theorem hasObsKey_insert_self (now : ℤ) (st : PriceStore) (r : PriceRow) :
    hasObsKey (insertPriceRow now st r) (obsKey r) = true := by
  by_cases h : hasObsKey st (obsKey r) = true
  · rw [insertPriceRow_noop h]; exact h
  · apply hasObsKey_iff.mpr
    refine ⟨r, ?_, rfl⟩
    rw [insertPriceRow_market_prices]
    simp [h]

theorem foldl_insert_hasKey_mono (now : ℤ) :
    ∀ (B : List PriceRow) (st : PriceStore) (k : String × String × ℤ),
      hasObsKey st k = true → hasObsKey (B.foldl (insertPriceRow now) st) k = true := by
  intro B
  induction B with
  | nil => intro st k h; simpa using h
  | cons b B ih =>
    intro st k h
    simp only [List.foldl_cons]
    exact ih _ _ (hasObsKey_insert_mono h)

theorem foldl_insert_keys (now : ℤ) :
    ∀ (B : List PriceRow) (st : PriceStore) (r : PriceRow), r ∈ B →
      hasObsKey (B.foldl (insertPriceRow now) st) (obsKey r) = true := by
  intro B
  induction B with
  | nil => intro st r hr; cases hr
  | cons b B ih =>
    intro st r hr
    simp only [List.foldl_cons]
    rcases List.mem_cons.mp hr with rfl | hr
    · exact foldl_insert_hasKey_mono now B _ _ (hasObsKey_insert_self now st r)
    · exact ih _ _ hr

theorem foldl_insert_noop (now : ℤ) :
    ∀ (B : List PriceRow) (st : PriceStore),
      (∀ r ∈ B, hasObsKey st (obsKey r) = true) →
      B.foldl (insertPriceRow now) st = st := by
  intro B
  induction B with
  | nil => intro st _; rfl
  | cons b B ih =>
    intro st h
    simp only [List.foldl_cons]
    rw [insertPriceRow_noop (h b (List.mem_cons_self b B))]
    exact ih st (fun r hr => h r (List.mem_cons_of_mem b hr))

theorem batchInsertPrices_rewrite_full (now1 now2 : ℤ) (st : PriceStore) (B : List PriceRow) :
    batchInsertPrices now2 (batchInsertPrices now1 st B) B = batchInsertPrices now1 st B := by
  by_cases hB : B.isEmpty
  · simp [batchInsertPrices, hB]
  · simp only [batchInsertPrices, hB, Bool.false_eq_true, if_false]
    exact foldl_insert_noop now2 B _ (fun r hr => foldl_insert_keys now1 B st r hr)

/-- C1: re-running a batch write is a no-op on the observation relation —
every row of the batch conflicts on the `(condition_id, token_id, timestamp)`
key after the first write, and the conflict action is do-nothing, so the
second `batchInsertPrices` inserts no row. -/
theorem claimC1_batchInsertPrices_idempotent (now1 now2 : ℤ) (st : PriceStore)
    (B : List PriceRow) :
    (batchInsertPrices now2 (batchInsertPrices now1 st B) B).market_prices =
      (batchInsertPrices now1 st B).market_prices := by
  rw [batchInsertPrices_rewrite_full]

/-- The key-existence invariant: an extremes row exists for a key exactly
when some observation with that `(condition_id, token_id)` has been inserted. -/
def storeKeyInv (st : PriceStore) : Prop :=
  ∀ k, (st.market_price_extremes k).isSome = true ↔
    ∃ r ∈ st.market_prices, rowKey2 r = k

theorem insertPriceRow_keyInv (now : ℤ) (r : PriceRow) {st : PriceStore}
    (h : storeKeyInv st) : storeKeyInv (insertPriceRow now st r) := by
  intro k
  unfold insertPriceRow
  split
  case isTrue hhas => exact h k
  case isFalse hhas =>
    by_cases hk : k = rowKey2 r
    · subst hk
      constructor
      · intro _
        exact ⟨r, by simp, rfl⟩
      · intro _
        simp
    · simp only [if_neg hk]
      rw [h k]
      constructor
      · rintro ⟨x, hx, hxk⟩
        exact ⟨x, List.mem_append_left _ hx, hxk⟩
      · rintro ⟨x, hx, hxk⟩
        rcases List.mem_append.mp hx with hx | hx
        · exact ⟨x, hx, hxk⟩
        · rcases List.mem_singleton.mp hx with rfl
          exact absurd hxk (fun hh => hk hh.symm)

theorem foldl_insert_keyInv (now : ℤ) :
    ∀ (B : List PriceRow) (st : PriceStore), storeKeyInv st →
      storeKeyInv (B.foldl (insertPriceRow now) st) := by
  intro B
  induction B with
  | nil => intro st h; simpa using h
  | cons b B ih =>
    intro st h
    simp only [List.foldl_cons]
    exact ih _ (insertPriceRow_keyInv now b h)

theorem batchInsertPrices_keyInv (now : ℤ) (B : List PriceRow) {st : PriceStore}
    (h : storeKeyInv st) : storeKeyInv (batchInsertPrices now st B) := by
  unfold batchInsertPrices
  split
  · exact h
  · exact foldl_insert_keyInv now B st h

theorem applyBatches_keyInv (ops : List (ℤ × List PriceRow)) :
    storeKeyInv (applyBatches ops) := by
  have base : storeKeyInv emptyStore := by
    intro k
    simp [emptyStore]
  rw [applyBatches]
  induction ops using List.reverseRecOn with
  | nil => simpa using base
  | append_singleton ops p ih =>
    rw [List.foldl_append]
    exact batchInsertPrices_keyInv p.1 p.2 ih

/-- C3: after every firing of the extremes trigger for an observation with
price in `[0,1]`, the affected extremes row satisfies
`lowest_price ≤ current_price ≤ highest_price`; and for every key, an
extremes row exists iff at least one observation was ever inserted for that
key (over any history of batch writes from the empty store). -/
theorem claimC3_extremes_invariants :
    (∀ (prev : Option ExtremesRow) (r : PriceRow) (now : ℤ),
        0 ≤ r.price → r.price ≤ 1 →
        (update_price_extremes prev r now).lowest_price ≤
            (update_price_extremes prev r now).current_price ∧
          (update_price_extremes prev r now).current_price ≤
            (update_price_extremes prev r now).highest_price) ∧
    (∀ (ops : List (ℤ × List PriceRow)) (k : String × String),
        ((applyBatches ops).market_price_extremes k).isSome = true ↔
          ∃ r ∈ (applyBatches ops).market_prices, rowKey2 r = k) := by
  constructor
  · intro prev r now _ _
    cases prev with
    | none => exact ⟨le_refl _, le_refl _⟩
    | some e =>
      constructor
      · show (if r.price < e.lowest_price then r.price else e.lowest_price) ≤ r.price
        split
        · exact le_refl _
        · exact le_of_not_lt (by assumption)
      · show r.price ≤ (if r.price > e.highest_price then r.price else e.highest_price)
        split
        · exact le_refl _
        · exact le_of_not_lt (by assumption)
  · intro ops k
    exact applyBatches_keyInv ops k

/-- A concrete observation row used to instantiate the C3 theorem. -/
def c3DemoRow : PriceRow :=
  { condition_id := "c", token_id := "t", outcome := some "Yes",
    price := 13/20, timestamp := 5, source := "rest" }

/-- Concrete instantiation of `claimC3_extremes_invariants`: a fresh extremes
row for a price `13/20` observation is internally ordered, and the
key-existence equivalence holds for a one-batch history. -/
theorem claimC3_witness :
    ((update_price_extremes none c3DemoRow 9).lowest_price ≤
      (update_price_extremes none c3DemoRow 9).current_price) ∧
    (((applyBatches [(9, [c3DemoRow])]).market_price_extremes
        ("c", "t")).isSome = true ↔
      ∃ r ∈ (applyBatches [(9, [c3DemoRow])]).market_prices,
        rowKey2 r = ("c", "t")) :=
  ⟨(claimC3_extremes_invariants.1 _ _ 9 (by norm_num [c3DemoRow]) (by norm_num [c3DemoRow])).1,
    claimC3_extremes_invariants.2 _ _⟩

/-- C4 counterexample: an ok response whose `price` field is the malformed
numeral `"abc"` makes `fetchTokenPrice` return `parseFloat("abc") = NaN`,
a number, not the absent value `null`. -/
theorem claimC4_counterexample :
    fetchStep (ApiResult.httpResponse 200 ⟨some "abc", none⟩) =
        FetchStep.finish (some JsNumber.nan) ∧
      FetchStep.finish (some JsNumber.nan) ≠ FetchStep.finish (none : Option JsNumber) := by
  constructor
  · decide
  · decide

/-- C4 (amended): `fetchTokenPrice` returns `null` on a non-success,
non-429 status, on an ok response whose `price`/`mid` selection is absent,
and on a network-level failure — never raising, since the embedding is a
total function mirroring the surrounding `try`/`catch`; a present (non-empty)
but malformed price string is instead passed to `parseFloat`, so it yields
`NaN`, a number rather than `null`. -/
theorem claimC4_fetch_absent (status : ℕ) (body : PriceBody) :
    (respOk status = false → status ≠ 429 →
        fetchStep (ApiResult.httpResponse status body) = FetchStep.finish none) ∧
    (respOk status = true → jsOrString body.price body.mid = none →
        fetchStep (ApiResult.httpResponse status body) = FetchStep.finish none) ∧
    fetchStep ApiResult.netFailure = FetchStep.finish none ∧
    (∀ s, respOk status = true → jsOrString body.price body.mid = some s →
        fetchStep (ApiResult.httpResponse status body) =
          FetchStep.finish (some (jsParseFloat s))) := by
  refine ⟨?_, ?_, rfl, ?_⟩
  · intro h1 h2
    simp [fetchStep, h1, h2]
  · intro h1 h2
    simp [fetchStep, h1, h2]
  · intro s h1 h2
    simp [fetchStep, h1, h2]

/-- Concrete instantiation of `claimC4_fetch_absent`: a 500 response yields
`null`. -/
theorem claimC4_witness :
    fetchStep (ApiResult.httpResponse 500 ⟨none, none⟩) = FetchStep.finish none :=
  (claimC4_fetch_absent 500 ⟨none, none⟩).1 (by decide) (by decide)

/-- C10: on an ok response, a present non-empty `price` string is the one
parsed (`mid` is ignored); an empty `price` string falls back to `mid`; and
with an empty `price` and absent `mid` the result is `null`, the empty
string never reaching `parseFloat`. -/
theorem claimC10_price_field_selection (status : ℕ) (body : PriceBody) (s m : String) :
    (respOk status = true → body.price = some s → s ≠ "" →
        fetchStep (ApiResult.httpResponse status body) =
          FetchStep.finish (some (jsParseFloat s))) ∧
    (respOk status = true → body.price = some "" → body.mid = some m →
        fetchStep (ApiResult.httpResponse status body) =
          FetchStep.finish (some (jsParseFloat m))) ∧
    (respOk status = true → body.price = some "" → body.mid = none →
        fetchStep (ApiResult.httpResponse status body) = FetchStep.finish none) := by
  refine ⟨?_, ?_, ?_⟩
  · intro h1 h2 h3
    simp [fetchStep, jsOrString, h1, h2, h3]
  · intro h1 h2 h3
    simp [fetchStep, jsOrString, h1, h2, h3]
  · intro h1 h2 h3
    simp [fetchStep, jsOrString, h1, h2, h3]

/-- Concrete instantiation of `claimC10_price_field_selection`: an empty
`price` with `mid = "0.7"` parses the `mid` field. -/
theorem claimC10_witness :
    fetchStep (ApiResult.httpResponse 200 ⟨some "", some "0.7"⟩) =
      FetchStep.finish (some (jsParseFloat "0.7")) :=
  (claimC10_price_field_selection 200 ⟨some "", some "0.7"⟩ "x" "0.7").2.1
    (by decide) rfl rfl

/-- A game that has ended (`end_date` in the past) but is not marked closed. -/
def c5EndedGame : GameRow :=
  { id := "g1", title := "Ended but open", closed := false, start_date := -10,
    end_date := some (-5), markets := [] }

/-- C5 counterexample: a non-closed game whose end time has passed is still
returned by `getActiveGames` (the query never consults `end_date`), while the
claim's characterisation — underway means `start ≤ now` with `end > now` or
end absent — excludes it. -/
theorem claimC5_counterexample :
    (getActiveGames 0 [c5EndedGame]).length = 1 ∧
      specTrackablePred 0 c5EndedGame = false := by
  constructor
  · decide
  · decide

/-- C5 (amended): `getActiveGames` returns exactly the games that are not
closed and either have already started (`start ≤ now`, regardless of any end
date — collection continues until the game is marked closed) or start
strictly within the next 48 hours, ordered by start time ascending and
carrying only their moneyline markets; a game starting in 72 hours is
excluded and one starting in 40 hours is included. -/
theorem claimC5_active_games (now : ℤ) (games : List GameRow) :
    (∀ g, g ∈ activeGamesSorted now games ↔ (g ∈ games ∧ activeGamePred now g = true)) ∧
    (activeGamesSorted now games).Pairwise gameStartLE ∧
    getActiveGames now games = (activeGamesSorted now games).map gameToActive ∧
    (∀ gOut ∈ getActiveGames now games, ∀ m ∈ gOut.markets,
        m.sportsMarketType = "moneyline") ∧
    (∀ g : GameRow, g.closed = false → g.start_date = now + 259200000 →
        activeGamePred now g = false) ∧
    (∀ g : GameRow, g.closed = false → g.start_date = now + 144000000 →
        activeGamePred now g = true) := by
  refine ⟨?_, ?_, rfl, ?_, ?_, ?_⟩
  · intro g
    simp [activeGamesSorted, List.mem_insertionSort, List.mem_filter]
  · exact List.sorted_insertionSort gameStartLE _
  · intro gOut hgOut m hm
    simp only [getActiveGames, List.mem_map] at hgOut
    obtain ⟨g, _, rfl⟩ := hgOut
    simp only [gameToActive, List.mem_filter, decide_eq_true_eq] at hm
    exact hm.2
  · intro g h1 h2
    simp only [activeGamePred, h1, h2, Bool.not_false, Bool.true_and]
    simp only [Bool.or_eq_false_iff, Bool.and_eq_false_iff]
    constructor
    · simp only [decide_eq_false_iff_not]
      omega
    · right
      simp only [decide_eq_false_iff_not]
      omega
  · intro g h1 h2
    simp only [activeGamePred, h1, h2, Bool.not_false, Bool.true_and]
    simp only [Bool.or_eq_true, Bool.and_eq_true, decide_eq_true_eq]
    right
    omega

/-- A game starting 40 hours from epoch time 0. -/
def c5Game40h : GameRow :=
  { id := "g2", title := "In 40 hours", closed := false, start_date := 144000000,
    end_date := none, markets := [] }

/-- Concrete instantiation of `claimC5_active_games`: the 40-hour game passes
the `getActiveGames` filter at time 0. -/
theorem claimC5_witness : activeGamePred 0 c5Game40h = true :=
  (claimC5_active_games 0 [c5Game40h]).2.2.2.2.2 c5Game40h rfl (by decide)

/-- C8: the frequency decision is high exactly when some qualifying game
(not closed, starting before `now + 48h`) has already started or starts
within the next 10 minutes; and when no game qualifies at all the decision
is low frequency with reason `"No upcoming games"` and no next start time. -/
theorem claimC8_frequency_decision (now : ℤ) (games : List GameRow) :
    ((shouldUseHighFrequency now games).highFrequency = true ↔
      ∃ g ∈ games, qualifiesFreq now g = true ∧
        (g.start_date ≤ now ∨ (now < g.start_date ∧ g.start_date ≤ now + 600000))) ∧
    (games.filter (qualifiesFreq now) = [] →
      shouldUseHighFrequency now games =
        { highFrequency := false, reason := "No upcoming games", nextGameStart := none }) := by
  have hAiff : 0 < ((games.filter (qualifiesFreq now)).filter
      (fun g => decide (g.start_date ≤ now))).length ↔
      ∃ g ∈ games, qualifiesFreq now g = true ∧ g.start_date ≤ now := by
    simp only [List.length_pos_iff_exists_mem, List.mem_filter, decide_eq_true_eq]
    constructor
    · rintro ⟨g, ⟨⟨hg, hq⟩, hs⟩⟩
      exact ⟨g, hg, hq, hs⟩
    · rintro ⟨g, hg, hq, hs⟩
      exact ⟨g, ⟨⟨hg, hq⟩, hs⟩⟩
  have hUiff : 0 < ((games.filter (qualifiesFreq now)).filter
      (fun g => decide (now < g.start_date) && decide (g.start_date ≤ now + 600000))).length ↔
      ∃ g ∈ games, qualifiesFreq now g = true ∧
        (now < g.start_date ∧ g.start_date ≤ now + 600000) := by
    simp only [List.length_pos_iff_exists_mem, List.mem_filter, Bool.and_eq_true,
      decide_eq_true_eq]
    constructor
    · rintro ⟨g, ⟨⟨hg, hq⟩, hs⟩⟩
      exact ⟨g, hg, hq, hs⟩
    · rintro ⟨g, hg, hq, hs⟩
      exact ⟨g, ⟨⟨hg, hq⟩, hs⟩⟩
  constructor
  · unfold shouldUseHighFrequency
    by_cases hA : 0 < ((games.filter (qualifiesFreq now)).filter
        (fun g => decide (g.start_date ≤ now))).length
    · simp only [hA, if_true]
      simp only [true_iff]
      rcases hAiff.mp hA with ⟨g, hg, hq, hs⟩
      exact ⟨g, hg, hq, Or.inl hs⟩
    · by_cases hU : 0 < ((games.filter (qualifiesFreq now)).filter
          (fun g => decide (now < g.start_date) && decide (g.start_date ≤ now + 600000))).length
      · simp only [hA, hU, if_true, if_false]
        simp only [true_iff]
        rcases hUiff.mp hU with ⟨g, hg, hq, hs⟩
        exact ⟨g, hg, hq, Or.inr hs⟩
      · simp only [hA, hU, if_false]
        constructor
        · intro hft
          exact absurd hft (by decide)
        · rintro ⟨g, hg, hq, hs | hs⟩
          · exact absurd (hAiff.mpr ⟨g, hg, hq, hs⟩) hA
          · exact absurd (hUiff.mpr ⟨g, hg, hq, hs⟩) hU
  · intro h
    unfold shouldUseHighFrequency
    rw [h]
    rfl

/-- Concrete instantiation of `claimC8_frequency_decision`: with an empty
catalog the decision is low frequency with reason `"No upcoming games"`. -/
theorem claimC8_witness :
    shouldUseHighFrequency 0 [] =
      { highFrequency := false, reason := "No upcoming games", nextGameStart := none } :=
  (claimC8_frequency_decision 0 []).2 rfl

/-! ## C2: extremes under replay of a per-key observation sequence -/

/-- First observation of the C2 counterexample: price `1` at timestamp 0. -/
def c2RowA : PriceRow :=
  { condition_id := "c", token_id := "t", outcome := some "Yes",
    price := 1, timestamp := 0, source := "rest" }

/-- Second observation of the C2 counterexample: price `0` at the same
timestamp 0, so it conflicts on `(condition_id, token_id, timestamp)`. -/
def c2RowB : PriceRow :=
  { condition_id := "c", token_id := "t", outcome := some "Yes",
    price := 0, timestamp := 0, source := "rest" }

/-- C2 counterexample: replaying the two-observation sequence through the
store leaves `lowest_price = 1`, because the second row conflicts on the
unique key and the trigger never sees it — yet the true minimum of the
sequence's prices is `0` (attained by the second observation). -/
theorem claimC2_counterexample :
    ((batchInsertPrices 0 emptyStore [c2RowA, c2RowB]).market_price_extremes
        ("c", "t")).map (fun e => e.lowest_price) = some 1 ∧
      c2RowB ∈ [c2RowA, c2RowB] ∧ c2RowB.price = 0 ∧
      (∀ o ∈ [c2RowA, c2RowB], (0 : ℚ) ≤ o.price) ∧
      (1 : ℚ) ≠ 0 := by
  refine ⟨by decide, by decide, by decide, by decide, by decide⟩

/-- Pure replay of the trigger over an optional extremes row. -/
def pureExtFold (now : ℤ) (acc : Option ExtremesRow) (l : List PriceRow) : Option ExtremesRow :=
  l.foldl (fun a o => some (update_price_extremes a o now)) acc

/-- Pure replay of the trigger over a present extremes row. -/
def extFoldRec (now : ℤ) (e : ExtremesRow) (l : List PriceRow) : ExtremesRow :=
  l.foldl (fun a o => update_price_extremes (some a) o now) e

theorem pureExtFold_some (now : ℤ) :
    ∀ (l : List PriceRow) (e : ExtremesRow),
      pureExtFold now (some e) l = some (extFoldRec now e l) := by
  intro l
  induction l with
  | nil => intro e; rfl
  | cons o l ih =>
    intro e
    simp only [pureExtFold, extFoldRec, List.foldl_cons] at ih ⊢
    exact ih _

theorem hasObsKey_insert_fresh_eq (now : ℤ) {st : PriceStore} {r : PriceRow}
    (hfresh : hasObsKey st (obsKey r) = false) (k : String × String × ℤ) :
    hasObsKey (insertPriceRow now st r) k =
      (hasObsKey st k || decide (obsKey r = k)) := by
  unfold insertPriceRow
  rw [if_neg (by simp [hfresh])]
  simp [hasObsKey, List.any_append]

/-- With a batch whose rows all carry the key `K`, have pairwise-distinct
timestamps, and are fresh for the store, the extremes row of `K` after the
multi-row insert is the pure trigger replay over the batch. -/
theorem foldl_insert_extremes_fresh (now : ℤ) (K : String × String) :
    ∀ (l : List PriceRow) (st : PriceStore),
      (∀ o ∈ l, rowKey2 o = K) →
      (∀ o ∈ l, hasObsKey st (obsKey o) = false) →
      (l.map (fun o => o.timestamp)).Nodup →
      (l.foldl (insertPriceRow now) st).market_price_extremes K =
        pureExtFold now (st.market_price_extremes K) l := by
  intro l
  induction l with
  | nil => intro st _ _ _; rfl
  | cons o l ih =>
    intro st hK hfresh hnd
    have hKo : rowKey2 o = K := hK o (List.mem_cons_self o l)
    have hfo : hasObsKey st (obsKey o) = false := hfresh o (List.mem_cons_self o l)
    have hnd2 : o.timestamp ∉ l.map (fun o => o.timestamp) ∧
        (l.map (fun o => o.timestamp)).Nodup := by
      rw [List.map_cons] at hnd
      exact List.nodup_cons.mp hnd
    have hndtail : (l.map (fun o => o.timestamp)).Nodup := hnd2.2
    have hts : ∀ x ∈ l, o.timestamp ≠ x.timestamp := by
      intro x hx hEq
      exact hnd2.1 (by
        rw [hEq]
        exact List.mem_map_of_mem (fun o => o.timestamp) hx)
    have hstep : (insertPriceRow now st o).market_price_extremes K =
        some (update_price_extremes (st.market_price_extremes K) o now) := by
      unfold insertPriceRow
      rw [if_neg (by simp [hfo])]
      simp [hKo]
    have hfresh2 : ∀ x ∈ l, hasObsKey (insertPriceRow now st o) (obsKey x) = false := by
      intro x hx
      rw [hasObsKey_insert_fresh_eq now hfo]
      have h1 : hasObsKey st (obsKey x) = false := hfresh x (List.mem_cons_of_mem o hx)
      have h2 : obsKey o ≠ obsKey x := by
        intro hEq
        exact hts x hx (congrArg (fun p => p.2.2) hEq)
      simp [h1, h2]
    simp only [List.foldl_cons]
    rw [ih (insertPriceRow now st o) (fun x hx => hK x (List.mem_cons_of_mem o hx))
      hfresh2 hndtail]
    rw [hstep]
    simp only [pureExtFold, List.foldl_cons]

theorem extFoldRec_lowest_le (now : ℤ) :
    ∀ (l : List PriceRow) (e : ExtremesRow),
      (extFoldRec now e l).lowest_price ≤ e.lowest_price ∧
      ∀ o ∈ l, (extFoldRec now e l).lowest_price ≤ o.price := by
  intro l
  induction l with
  | nil =>
    intro e
    exact ⟨le_refl _, fun o ho => absurd ho (List.not_mem_nil o)⟩
  | cons o l ih =>
    intro e
    have h1 : (update_price_extremes (some e) o now).lowest_price ≤ e.lowest_price := by
      show (if o.price < e.lowest_price then o.price else e.lowest_price) ≤ e.lowest_price
      split
      · exact le_of_lt (by assumption)
      · exact le_refl _
    have h2 : (update_price_extremes (some e) o now).lowest_price ≤ o.price := by
      show (if o.price < e.lowest_price then o.price else e.lowest_price) ≤ o.price
      split
      · exact le_refl _
      · exact le_of_not_lt (by assumption)
    have hfold : extFoldRec now e (o :: l) =
        extFoldRec now (update_price_extremes (some e) o now) l := rfl
    rw [hfold]
    rcases ih (update_price_extremes (some e) o now) with ⟨ihe, ihall⟩
    refine ⟨le_trans ihe h1, ?_⟩
    intro x hx
    rcases List.mem_cons.mp hx with rfl | hx
    · exact le_trans ihe h2
    · exact ihall x hx

theorem extFoldRec_highest_ge (now : ℤ) :
    ∀ (l : List PriceRow) (e : ExtremesRow),
      e.highest_price ≤ (extFoldRec now e l).highest_price ∧
      ∀ o ∈ l, o.price ≤ (extFoldRec now e l).highest_price := by
  intro l
  induction l with
  | nil =>
    intro e
    exact ⟨le_refl _, fun o ho => absurd ho (List.not_mem_nil o)⟩
  | cons o l ih =>
    intro e
    have h1 : e.highest_price ≤ (update_price_extremes (some e) o now).highest_price := by
      show e.highest_price ≤ (if o.price > e.highest_price then o.price else e.highest_price)
      split
      · exact le_of_lt (by assumption)
      · exact le_refl _
    have h2 : o.price ≤ (update_price_extremes (some e) o now).highest_price := by
      show o.price ≤ (if o.price > e.highest_price then o.price else e.highest_price)
      split
      · exact le_refl _
      · exact le_of_not_lt (by assumption)
    have hfold : extFoldRec now e (o :: l) =
        extFoldRec now (update_price_extremes (some e) o now) l := rfl
    rw [hfold]
    rcases ih (update_price_extremes (some e) o now) with ⟨ihe, ihall⟩
    refine ⟨le_trans h1 ihe, ?_⟩
    intro x hx
    rcases List.mem_cons.mp hx with rfl | hx
    · exact le_trans h2 ihe
    · exact ihall x hx

theorem extFoldRec_lowest_attained (now : ℤ) :
    ∀ (l : List PriceRow) (e : ExtremesRow),
      ((extFoldRec now e l).lowest_price = e.lowest_price ∧
        (extFoldRec now e l).lowest_price_timestamp = e.lowest_price_timestamp) ∨
      ∃ o ∈ l, o.price = (extFoldRec now e l).lowest_price ∧
        o.timestamp = (extFoldRec now e l).lowest_price_timestamp := by
  intro l
  induction l with
  | nil =>
    intro e
    exact Or.inl ⟨rfl, rfl⟩
  | cons o l ih =>
    intro e
    have hfold : extFoldRec now e (o :: l) =
        extFoldRec now (update_price_extremes (some e) o now) l := rfl
    rw [hfold]
    rcases ih (update_price_extremes (some e) o now) with ⟨hp, ht⟩ | ⟨x, hx, hxp, hxt⟩
    · by_cases hlt : o.price < e.lowest_price
      · refine Or.inr ⟨o, List.mem_cons_self o l, ?_, ?_⟩
        · rw [hp]
          show o.price = (if o.price < e.lowest_price then o.price else e.lowest_price)
          rw [if_pos hlt]
        · rw [ht]
          show o.timestamp =
            (if o.price < e.lowest_price then o.timestamp else e.lowest_price_timestamp)
          rw [if_pos hlt]
      · refine Or.inl ⟨?_, ?_⟩
        · rw [hp]
          show (if o.price < e.lowest_price then o.price else e.lowest_price) = e.lowest_price
          rw [if_neg hlt]
        · rw [ht]
          show (if o.price < e.lowest_price then o.timestamp else e.lowest_price_timestamp) =
            e.lowest_price_timestamp
          rw [if_neg hlt]
    · exact Or.inr ⟨x, List.mem_cons_of_mem o hx, hxp, hxt⟩

theorem extFoldRec_highest_attained (now : ℤ) :
    ∀ (l : List PriceRow) (e : ExtremesRow),
      ((extFoldRec now e l).highest_price = e.highest_price ∧
        (extFoldRec now e l).highest_price_timestamp = e.highest_price_timestamp) ∨
      ∃ o ∈ l, o.price = (extFoldRec now e l).highest_price ∧
        o.timestamp = (extFoldRec now e l).highest_price_timestamp := by
  intro l
  induction l with
  | nil =>
    intro e
    exact Or.inl ⟨rfl, rfl⟩
  | cons o l ih =>
    intro e
    have hfold : extFoldRec now e (o :: l) =
        extFoldRec now (update_price_extremes (some e) o now) l := rfl
    rw [hfold]
    rcases ih (update_price_extremes (some e) o now) with ⟨hp, ht⟩ | ⟨x, hx, hxp, hxt⟩
    · by_cases hlt : o.price > e.highest_price
      · refine Or.inr ⟨o, List.mem_cons_self o l, ?_, ?_⟩
        · rw [hp]
          show o.price = (if o.price > e.highest_price then o.price else e.highest_price)
          rw [if_pos hlt]
        · rw [ht]
          show o.timestamp =
            (if o.price > e.highest_price then o.timestamp else e.highest_price_timestamp)
          rw [if_pos hlt]
      · refine Or.inl ⟨?_, ?_⟩
        · rw [hp]
          show (if o.price > e.highest_price then o.price else e.highest_price) = e.highest_price
          rw [if_neg hlt]
        · rw [ht]
          show (if o.price > e.highest_price then o.timestamp else e.highest_price_timestamp) =
            e.highest_price_timestamp
          rw [if_neg hlt]
    · exact Or.inr ⟨x, List.mem_cons_of_mem o hx, hxp, hxt⟩

theorem extFoldRec_current (now : ℤ) :
    ∀ (l : List PriceRow) (e : ExtremesRow),
      (extFoldRec now e l).current_price =
          (l.map (fun o => o.price)).getLastD e.current_price ∧
      (extFoldRec now e l).current_price_timestamp =
          (l.map (fun o => o.timestamp)).getLastD e.current_price_timestamp := by
  intro l
  induction l with
  | nil =>
    intro e
    exact ⟨rfl, rfl⟩
  | cons o l ih =>
    intro e
    have hfold : extFoldRec now e (o :: l) =
        extFoldRec now (update_price_extremes (some e) o now) l := rfl
    rw [hfold]
    rcases ih (update_price_extremes (some e) o now) with ⟨h1, h2⟩
    constructor
    · rw [h1, List.map_cons, List.getLastD_cons]
      rfl
    · rw [h2, List.map_cons, List.getLastD_cons]
      rfl

theorem getLastD_of_getLast? :
    ∀ (l : List PriceRow) (a olast : PriceRow), (a :: l).getLast? = some olast →
      (l.map (fun o => o.price)).getLastD a.price = olast.price ∧
      (l.map (fun o => o.timestamp)).getLastD a.timestamp = olast.timestamp := by
  intro l
  induction l with
  | nil =>
    intro a olast h
    have : a = olast := by simpa using h
    subst this
    exact ⟨rfl, rfl⟩
  | cons c l ih =>
    intro a olast h
    rw [List.getLast?_cons_cons] at h
    rcases ih c olast h with ⟨h1, h2⟩
    constructor
    · rw [List.map_cons, List.getLastD_cons]
      exact h1
    · rw [List.map_cons, List.getLastD_cons]
      exact h2

/-- Characterisation of the extremes row after replaying, through the store,
a non-empty batch of fresh observations for one key with pairwise-distinct
timestamps. -/
theorem extremesReplayChar (now : ℤ) (K : String × String) (l : List PriceRow)
    (hne : l ≠ []) (hK : ∀ o ∈ l, rowKey2 o = K)
    (hnd : (l.map (fun o => o.timestamp)).Nodup) :
    ∃ r, (batchInsertPrices now emptyStore l).market_price_extremes K = some r ∧
      (∀ o ∈ l, r.lowest_price ≤ o.price ∧ o.price ≤ r.highest_price) ∧
      (∃ o ∈ l, o.price = r.lowest_price ∧ o.timestamp = r.lowest_price_timestamp) ∧
      (∃ o ∈ l, o.price = r.highest_price ∧ o.timestamp = r.highest_price_timestamp) ∧
      (∀ olast, l.getLast? = some olast →
        r.current_price = olast.price ∧ r.current_price_timestamp = olast.timestamp) := by
  obtain ⟨o, l', rfl⟩ := List.exists_cons_of_ne_nil hne
  have hred : (batchInsertPrices now emptyStore (o :: l')).market_price_extremes K =
      pureExtFold now none (o :: l') := by
    unfold batchInsertPrices
    rw [if_neg (by simp)]
    exact foldl_insert_extremes_fresh now K (o :: l') emptyStore hK (fun x _ => rfl) hnd
  have hpf : pureExtFold now none (o :: l') =
      some (extFoldRec now (update_price_extremes none o now) l') := by
    rw [show pureExtFold now none (o :: l') =
      pureExtFold now (some (update_price_extremes none o now)) l' from rfl]
    exact pureExtFold_some now l' _
  refine ⟨extFoldRec now (update_price_extremes none o now) l', by rw [hred, hpf],
    ?_, ?_, ?_, ?_⟩
  · intro x hx
    rcases List.mem_cons.mp hx with rfl | hx
    · exact ⟨(extFoldRec_lowest_le now l' (update_price_extremes none x now)).1,
        (extFoldRec_highest_ge now l' (update_price_extremes none x now)).1⟩
    · exact ⟨(extFoldRec_lowest_le now l' (update_price_extremes none o now)).2 x hx,
        (extFoldRec_highest_ge now l' (update_price_extremes none o now)).2 x hx⟩
  · rcases extFoldRec_lowest_attained now l' (update_price_extremes none o now) with
      ⟨hp, ht⟩ | ⟨x, hx, hxp, hxt⟩
    · exact ⟨o, List.mem_cons_self o l', hp.symm, ht.symm⟩
    · exact ⟨x, List.mem_cons_of_mem o hx, hxp, hxt⟩
  · rcases extFoldRec_highest_attained now l' (update_price_extremes none o now) with
      ⟨hp, ht⟩ | ⟨x, hx, hxp, hxt⟩
    · exact ⟨o, List.mem_cons_self o l', hp.symm, ht.symm⟩
    · exact ⟨x, List.mem_cons_of_mem o hx, hxp, hxt⟩
  · intro olast hlast
    rcases getLastD_of_getLast? l' o olast hlast with ⟨h1, h2⟩
    rcases extFoldRec_current now l' (update_price_extremes none o now) with ⟨hc1, hc2⟩
    exact ⟨by rw [hc1]; exact h1, by rw [hc2]; exact h2⟩

/-- C2 (amended): for a fixed key and a finite sequence of observations for
that key with pairwise-distinct timestamps, replaying the whole sequence
through the store gives an extremes row whose `lowest_price`/`highest_price`
are the true minimum/maximum of the sequence's prices, each paired with the
timestamp of an observation attaining it; these values are identical for any
reordering of the sequence (the trigger compares with strict `<`/`>` against
the stored extreme only); and `current_price` is the price of the observation
applied last in insertion order. The distinct-timestamp hypothesis is forced
by the counterexample: observations sharing a timestamp conflict on the
unique key, are dropped, and never reach the trigger. -/
theorem claimC2_extremes_replay (now : ℤ) (K : String × String) (l : List PriceRow)
    (hne : l ≠ []) (hK : ∀ o ∈ l, rowKey2 o = K)
    (hnd : (l.map (fun o => o.timestamp)).Nodup) :
    ∃ r, (batchInsertPrices now emptyStore l).market_price_extremes K = some r ∧
      (∀ o ∈ l, r.lowest_price ≤ o.price ∧ o.price ≤ r.highest_price) ∧
      (∃ o ∈ l, o.price = r.lowest_price ∧ o.timestamp = r.lowest_price_timestamp) ∧
      (∃ o ∈ l, o.price = r.highest_price ∧ o.timestamp = r.highest_price_timestamp) ∧
      (∀ l', l.Perm l' →
        ∃ r', (batchInsertPrices now emptyStore l').market_price_extremes K = some r' ∧
          r'.lowest_price = r.lowest_price ∧ r'.highest_price = r.highest_price) ∧
      (∀ olast, l.getLast? = some olast →
        r.current_price = olast.price ∧ r.current_price_timestamp = olast.timestamp) := by
  obtain ⟨r, hr, hbounds, hlow, hhigh, hcur⟩ := extremesReplayChar now K l hne hK hnd
  refine ⟨r, hr, hbounds, hlow, hhigh, ?_, hcur⟩
  intro l' hperm
  have hne2 : l' ≠ [] := by
    intro h
    exact hne (List.Perm.eq_nil (h ▸ hperm))
  have hK2 : ∀ o ∈ l', rowKey2 o = K := fun o ho => hK o (hperm.mem_iff.mpr ho)
  have hnd2 : (l'.map (fun o => o.timestamp)).Nodup :=
    ((hperm.map (fun o => o.timestamp)).nodup_iff).mp hnd
  obtain ⟨r', hr', hbounds2, hlow2, hhigh2, _⟩ := extremesReplayChar now K l' hne2 hK2 hnd2
  refine ⟨r', hr', ?_, ?_⟩
  · rcases hlow with ⟨a, ha, hap, _⟩
    rcases hlow2 with ⟨b, hb, hbp, _⟩
    apply le_antisymm
    · have h := (hbounds2 a (hperm.mem_iff.mp ha)).1
      rw [hap] at h
      exact h
    · have h := (hbounds b (hperm.mem_iff.mpr hb)).1
      rw [hbp] at h
      exact h
  · rcases hhigh with ⟨a, ha, hap, _⟩
    rcases hhigh2 with ⟨b, hb, hbp, _⟩
    apply le_antisymm
    · have h := (hbounds b (hperm.mem_iff.mpr hb)).2
      rw [hbp] at h
      exact h
    · have h := (hbounds2 a (hperm.mem_iff.mp ha)).2
      rw [hap] at h
      exact h

/-- First demo observation for the C2 witness: price `1` at timestamp 1. -/
def c2DemoRow1 : PriceRow :=
  { condition_id := "c", token_id := "t", outcome := some "Yes",
    price := 1, timestamp := 1, source := "rest" }

/-- Second demo observation for the C2 witness: price `0` at timestamp 2. -/
def c2DemoRow2 : PriceRow :=
  { condition_id := "c", token_id := "t", outcome := some "Yes",
    price := 0, timestamp := 2, source := "rest" }

/-- Concrete instantiation of `claimC2_extremes_replay` on a two-observation
sequence with distinct timestamps. -/
theorem claimC2_witness :
    ∃ r, (batchInsertPrices 0 emptyStore [c2DemoRow1, c2DemoRow2]).market_price_extremes
        ("c", "t") = some r ∧
      ∀ o ∈ [c2DemoRow1, c2DemoRow2], r.lowest_price ≤ o.price ∧ o.price ≤ r.highest_price := by
  obtain ⟨r, hr, hb, -⟩ := claimC2_extremes_replay 0 ("c", "t") [c2DemoRow1, c2DemoRow2]
    (by decide) (by decide) (by decide)
  exact ⟨r, hr, hb⟩

/-! ## C6/C7/C9: temporal properties of a simulated run -/

/-- Two request issue times separated by at least the inter-request delay. -/
def reqGap (a b : ℕ) : Prop :=
  a + DELAY_BETWEEN_REQUESTS ≤ b

instance : IsTrans ℕ reqGap :=
  ⟨fun a b c h1 h2 => by
    unfold reqGap at h1 h2 ⊢
    omega⟩

/-- Invariant between outcomes: request times are `reqGap`-chained and the
clock is at least one full delay past the last issued request. -/
def GoodState (st : RunState) : Prop :=
  (st.requests.map Prod.fst).Chain' reqGap ∧
  ∀ t ∈ (st.requests.map Prod.fst).getLast?, t + DELAY_BETWEEN_REQUESTS ≤ st.clock

/-- Invariant right after a fetch returns: chained request times, clock not
before the last issued request. -/
def MidState (st : RunState) : Prop :=
  (st.requests.map Prod.fst).Chain' reqGap ∧
  ∀ t ∈ (st.requests.map Prod.fst).getLast?, t ≤ st.clock

theorem chain_gap_snoc {l : List ℕ} {x : ℕ} (h : l.Chain' reqGap)
    (hlast : ∀ t ∈ l.getLast?, t + DELAY_BETWEEN_REQUESTS ≤ x) :
    (l ++ [x]).Chain' reqGap := by
  rw [List.chain'_append]
  refine ⟨h, List.chain'_singleton x, ?_⟩
  intro a ha b hb
  have hb2 : x = b := by simpa using hb
  subst hb2
  exact hlast a ha

theorem delay_le_cooldown : DELAY_BETWEEN_REQUESTS ≤ 30000 := by
  decide

theorem fetchT_mid (oracle : ℕ → OracleStep) (tid : String) :
    ∀ (fuel : ℕ) (st : RunState), GoodState st →
      MidState (fetchTokenPriceT oracle tid fuel st).1 := by
  intro fuel
  induction fuel with
  | zero =>
    intro st h
    exact ⟨h.1, fun t ht => le_trans (Nat.le_add_right t _) (h.2 t ht)⟩
  | succ fuel ih =>
    intro st h
    have hchain1 : ((st.requests ++ [(st.clock, tid)]).map Prod.fst).Chain' reqGap := by
      rw [List.map_append]
      exact chain_gap_snoc h.1 h.2
    have hlast1 : ((st.requests ++ [(st.clock, tid)]).map Prod.fst).getLast? =
        some st.clock := by
      rw [List.map_append]
      exact List.getLast?_concat _
    show MidState (match fetchStep (oracle st.requests.length).result with
      | FetchStep.retryAfterCooldown =>
        fetchTokenPriceT oracle tid fuel
          { clock := st.clock + (oracle st.requests.length).latency + 30000
            requests := st.requests ++ [(st.clock, tid)]
            requestCount := st.requestCount, successCount := st.successCount
            failureCount := st.failureCount, priceRecords := st.priceRecords }
      | FetchStep.finish r =>
        ({ clock := st.clock + (oracle st.requests.length).latency
           requests := st.requests ++ [(st.clock, tid)]
           requestCount := st.requestCount, successCount := st.successCount
           failureCount := st.failureCount, priceRecords := st.priceRecords }, r)).1
    cases fetchStep (oracle st.requests.length).result with
    | retryAfterCooldown =>
      apply ih
      refine ⟨hchain1, ?_⟩
      intro t ht
      rw [hlast1] at ht
      have ht2 : st.clock = t := by simpa using ht
      have hd := delay_le_cooldown
      show t + DELAY_BETWEEN_REQUESTS ≤
        st.clock + (oracle st.requests.length).latency + 30000
      omega
    | finish r =>
      refine ⟨hchain1, ?_⟩
      intro t ht
      rw [hlast1] at ht
      have ht2 : st.clock = t := by simpa using ht
      show t ≤ st.clock + (oracle st.requests.length).latency
      omega

theorem recordResult_requests (cid : String) (T : ℤ) (title tid : String)
    (pr : RunState × Option JsNumber) :
    (recordResult cid T title tid pr).requests = pr.1.requests := by
  obtain ⟨st2, res⟩ := pr
  cases res <;> rfl

theorem recordResult_clock (cid : String) (T : ℤ) (title tid : String)
    (pr : RunState × Option JsNumber) :
    (recordResult cid T title tid pr).clock = pr.1.clock := by
  obtain ⟨st2, res⟩ := pr
  cases res <;> rfl

theorem rateGate_good {st : RunState} (h : GoodState st) : GoodState (rateGate st) := by
  unfold rateGate
  split
  · refine ⟨h.1, ?_⟩
    intro t ht
    have := h.2 t ht
    show t + DELAY_BETWEEN_REQUESTS ≤ st.clock + DELAY_BETWEEN_REQUESTS
    omega
  · exact h

theorem processOutcome_good (oracle : ℕ → OracleStep) (fuel : ℕ) (cid : String) (T : ℤ)
    (st : RunState) (o : OutcomeRow) (h : GoodState st) :
    GoodState (processOutcome oracle fuel cid T st o) := by
  unfold processOutcome
  rcases hto : o.tokenID with _ | tid
  · simp only [hto]
    exact h
  · simp only [hto]
    by_cases htid : tid = ""
    · rw [if_pos htid]
      exact h
    · rw [if_neg htid]
      have hmid : MidState (fetchTokenPriceT oracle tid fuel (rateGate st)).1 :=
        fetchT_mid oracle tid fuel _ (rateGate_good h)
      refine ⟨?_, ?_⟩
      · show ((recordResult cid T o.title tid
            (fetchTokenPriceT oracle tid fuel (rateGate st))).requests.map Prod.fst).Chain' reqGap
        rw [recordResult_requests]
        exact hmid.1
      · intro t ht
        have ht' : t ∈ (((fetchTokenPriceT oracle tid fuel
            (rateGate st)).1.requests).map Prod.fst).getLast? := by
          have ht2 : t ∈ ((recordResult cid T o.title tid
              (fetchTokenPriceT oracle tid fuel (rateGate st))).requests.map
                Prod.fst).getLast? := ht
          rw [recordResult_requests] at ht2
          exact ht2
        have hcl := hmid.2 t ht'
        show t + DELAY_BETWEEN_REQUESTS ≤ (recordResult cid T o.title tid
          (fetchTokenPriceT oracle tid fuel (rateGate st))).clock + DELAY_BETWEEN_REQUESTS
        rw [recordResult_clock]
        omega

theorem foldl_good_preserve {α : Type} (f : RunState → α → RunState)
    (hf : ∀ st a, GoodState st → GoodState (f st a)) :
    ∀ (l : List α) (st : RunState), GoodState st → GoodState (l.foldl f st) := by
  intro l
  induction l with
  | nil => intro st h; exact h
  | cons a l ih => intro st h; exact ih _ (hf st a h)

theorem processMarket_good (oracle : ℕ → OracleStep) (fuel : ℕ) (T : ℤ)
    (st : RunState) (m : MarketRow) (h : GoodState st) :
    GoodState (processMarket oracle fuel T st m) :=
  foldl_good_preserve _ (fun st2 o h2 => processOutcome_good oracle fuel m.conditionId T st2 o h2)
    m.outcomes st h

theorem processGame_good (oracle : ℕ → OracleStep) (fuel : ℕ) (T : ℤ)
    (st : RunState) (g : GameOut) (h : GoodState st) :
    GoodState (processGame oracle fuel T st g) :=
  foldl_good_preserve _ (fun st2 m h2 => processMarket_good oracle fuel T st2 m h2)
    g.markets st h

theorem initRunState_good (t0 : ℕ) : GoodState (initRunState t0) := by
  refine ⟨List.chain'_nil, ?_⟩
  intro t ht
  simp [initRunState] at ht

theorem collectPricesT_good (oracle : ℕ → OracleStep) (fuel : ℕ) (T : ℤ) (t0 : ℕ)
    (games : List GameOut) : GoodState (collectPricesT oracle fuel T t0 games).1 := by
  unfold collectPricesT
  split
  · exact initRunState_good t0
  · exact foldl_good_preserve _ (fun st g h => processGame_good oracle fuel T st g h)
      games (initRunState t0) (initRunState_good t0)

theorem pairwise_gap_window :
    ∀ (l : List ℕ) (n a : ℕ), l.Pairwise reqGap →
      (∀ t ∈ l, a ≤ t ∧ t < a + DELAY_BETWEEN_REQUESTS * n) → l.length ≤ n := by
  intro l
  induction l with
  | nil =>
    intro n a _ _
    simp
  | cons x l ih =>
    intro n a hp hw
    rcases hw x (List.mem_cons_self x l) with ⟨hax, hxw⟩
    cases n with
    | zero =>
      exfalso
      have hxa : x < a := by simpa using hxw
      omega
    | succ m =>
      rcases List.pairwise_cons.mp hp with ⟨hx_all, hp2⟩
      have hlen : l.length ≤ m := by
        apply ih m (a + DELAY_BETWEEN_REQUESTS) hp2
        intro t ht
        have hg := hx_all t ht
        rcases hw t (List.mem_cons_of_mem x ht) with ⟨hat, htw⟩
        unfold reqGap at hg
        have hsucc : DELAY_BETWEEN_REQUESTS * (m + 1) =
            DELAY_BETWEEN_REQUESTS * m + DELAY_BETWEEN_REQUESTS := by ring
        constructor
        · omega
        · omega
      simpa using Nat.succ_le_succ hlen

theorem chain_window_count (l : List ℕ) (h : l.Chain' reqGap) (a : ℕ) :
    (l.filter (fun t => decide (a ≤ t) && decide (t < a + 60000))).length ≤ 90 := by
  have hp : l.Pairwise reqGap := List.chain'_iff_pairwise.mp h
  have hps : (l.filter (fun t => decide (a ≤ t) && decide (t < a + 60000))).Pairwise reqGap :=
    hp.sublist (List.filter_sublist l)
  apply pairwise_gap_window _ 90 a hps
  intro t ht
  rcases List.mem_filter.mp ht with ⟨-, hcond⟩
  have hcond2 : a ≤ t ∧ t < a + 60000 := by simpa using hcond
  have hmul : 60000 ≤ DELAY_BETWEEN_REQUESTS * 90 := by decide
  exact ⟨hcond2.1, by omega⟩

/-- C6: `DELAY_BETWEEN_REQUESTS = ceil(60000/90) = 667`; in every simulated
collection run consecutive quote requests (retries included) are separated by
at least `DELAY_BETWEEN_REQUESTS` milliseconds — the post-request sleep runs
before every subsequent request, whatever the observed latencies — so any
60000 ms window contains at most 90 requests. -/
theorem claimC6_rate_limit :
    DELAY_BETWEEN_REQUESTS = 667 ∧
    ∀ (oracle : ℕ → OracleStep) (fuel : ℕ) (T : ℤ) (t0 : ℕ) (games : List GameOut),
      ((collectPricesT oracle fuel T t0 games).1.requests.map Prod.fst).Chain' reqGap ∧
      ∀ a : ℕ, (((collectPricesT oracle fuel T t0 games).1.requests.map Prod.fst).filter
          (fun t => decide (a ≤ t) && decide (t < a + 60000))).length ≤ 90 := by
  refine ⟨by decide, ?_⟩
  intro oracle fuel T t0 games
  have hg := collectPricesT_good oracle fuel T t0 games
  exact ⟨hg.1, fun a => chain_window_count _ hg.1 a⟩

/-- C9: a collection run whose trackable-game enumeration is empty returns
immediately and normally with the initial state — all counters zero, no
request issued, no record collected — and performs no batch write. -/
theorem claimC9_empty_run (oracle : ℕ → OracleStep) (fuel : ℕ) (T : ℤ) (t0 : ℕ) :
    collectPricesT oracle fuel T t0 [] = (initRunState t0, []) ∧
      (collectPricesT oracle fuel T t0 []).1.requestCount = 0 ∧
      (collectPricesT oracle fuel T t0 []).1.successCount = 0 ∧
      (collectPricesT oracle fuel T t0 []).1.failureCount = 0 ∧
      (collectPricesT oracle fuel T t0 []).1.priceRecords = [] ∧
      (collectPricesT oracle fuel T t0 []).1.requests = [] ∧
      (collectPricesT oracle fuel T t0 []).2 = [] ∧
      ([] : List GameOut).length = 0 :=
  ⟨rfl, rfl, rfl, rfl, rfl, rfl, rfl, rfl⟩

/-- After `n` consecutive rate-limit responses followed by a decisive one,
`fetchTokenPrice` has issued exactly `n + 1` requests, all for the same token,
each retry at least 30000 ms after the previous attempt, and returns the
value of the decisive response — the rate-limit signals never surface. -/
theorem fetchT_retry_chain :
    ∀ (n : ℕ) (oracle : ℕ → OracleStep) (tid : String) (fuel : ℕ) (st : RunState)
      (v : Option JsNumber),
      n < fuel →
      (∀ i, i < n → fetchStep (oracle (st.requests.length + i)).result =
        FetchStep.retryAfterCooldown) →
      fetchStep (oracle (st.requests.length + n)).result = FetchStep.finish v →
      ∃ ts : List (ℕ × String),
        (fetchTokenPriceT oracle tid fuel st).1.requests = st.requests ++ ts ∧
        (fetchTokenPriceT oracle tid fuel st).2 = v ∧
        ts.length = n + 1 ∧
        (∀ e ∈ ts, e.2 = tid) ∧
        ts.head? = some (st.clock, tid) ∧
        (ts.map Prod.fst).Chain' (fun a b => a + 30000 ≤ b) := by
  intro n
  induction n with
  | zero =>
    intro oracle tid fuel st v hfuel h429 hfin
    obtain ⟨f, rfl⟩ : ∃ f, fuel = f + 1 := ⟨fuel - 1, by omega⟩
    rw [Nat.add_zero] at hfin
    refine ⟨[(st.clock, tid)], ?_, ?_, rfl, ?_, rfl, List.chain'_singleton _⟩
    · simp only [fetchTokenPriceT, hfin]
    · simp only [fetchTokenPriceT, hfin]
    · intro e he
      have he2 : e = (st.clock, tid) := by simpa using he
      subst he2
      rfl
  | succ n ih =>
    intro oracle tid fuel st v hfuel h429 hfin
    obtain ⟨f, rfl⟩ : ∃ f, fuel = f + 1 := ⟨fuel - 1, by omega⟩
    have h0 : fetchStep (oracle st.requests.length).result =
        FetchStep.retryAfterCooldown := by
      have h := h429 0 (Nat.succ_pos n)
      rwa [Nat.add_zero] at h
    have hst2 : fetchTokenPriceT oracle tid (f + 1) st = fetchTokenPriceT oracle tid f
        { clock := st.clock + (oracle st.requests.length).latency + 30000,
          requests := st.requests ++ [(st.clock, tid)],
          requestCount := st.requestCount, successCount := st.successCount,
          failureCount := st.failureCount, priceRecords := st.priceRecords } := by
      simp only [fetchTokenPriceT, h0]
    obtain ⟨ts2, hreq2, hval2, hlen2, htid2, hhead2, hchain2⟩ :=
      ih oracle tid f
        { clock := st.clock + (oracle st.requests.length).latency + 30000,
          requests := st.requests ++ [(st.clock, tid)],
          requestCount := st.requestCount, successCount := st.successCount,
          failureCount := st.failureCount, priceRecords := st.priceRecords } v
        (by omega)
        (by
          intro i hi
          show fetchStep (oracle ((st.requests ++ [(st.clock, tid)]).length + i)).result =
            FetchStep.retryAfterCooldown
          have h := h429 (i + 1) (by omega)
          rwa [show st.requests.length + (i + 1) =
            (st.requests ++ [(st.clock, tid)]).length + i from by
              simp only [List.length_append, List.length_singleton]
              omega] at h)
        (by
          show fetchStep (oracle ((st.requests ++ [(st.clock, tid)]).length + n)).result =
            FetchStep.finish v
          rwa [show st.requests.length + (n + 1) =
            (st.requests ++ [(st.clock, tid)]).length + n from by
              simp only [List.length_append, List.length_singleton]
              omega] at hfin)
    refine ⟨(st.clock, tid) :: ts2, ?_, ?_, ?_, ?_, rfl, ?_⟩
    · rw [hst2, hreq2]
      show (st.requests ++ [(st.clock, tid)]) ++ ts2 = st.requests ++ ((st.clock, tid) :: ts2)
      rw [List.append_assoc]
      rfl
    · rw [hst2]
      exact hval2
    · show ((st.clock, tid) :: ts2).length = n + 1 + 1
      rw [List.length_cons, hlen2]
    · intro e he
      rcases List.mem_cons.mp he with rfl | he2
      · rfl
      · exact htid2 e he2
    · rw [List.map_cons, List.chain'_cons']
      refine ⟨?_, hchain2⟩
      intro y hy
      rw [List.head?_map, hhead2] at hy
      have hy2 : st.clock + (oracle st.requests.length).latency + 30000 = y := by
        simpa using hy
      omega

/-- Oracle for the concrete C7 run: the first request is rate limited
(latency 5 ms), every later one succeeds with price string `"0.65"`. -/
def c7Oracle : ℕ → OracleStep := fun i =>
  if i = 0 then { latency := 5, result := ApiResult.httpResponse 429 ⟨none, none⟩ }
  else { latency := 3, result := ApiResult.httpResponse 200 ⟨some "0.65", none⟩ }

/-- The single moneyline market of the concrete C7 run. -/
def c7Market : MarketRow :=
  { conditionId := "c", marketSlug := "s", sportsMarketType := "moneyline",
    outcomes := [{ title := "Yes", tokenID := some "tok" }] }

/-- The single game of the concrete C7 run. -/
def c7Game : GameOut :=
  { id := "g", title := "G", markets := [c7Market] }

/-- C7: on a rate-limit response `fetchTokenPrice` waits the fixed 30000 ms
cooldown and reissues the same request, without bound while 429s continue —
after `n` consecutive rate-limit responses and one decisive response it has
issued exactly `n + 1` requests for the same token id, consecutive attempts
at least 30000 ms apart, and returns the decisive response's value (the
rate-limit signal is never surfaced as a failure); concretely, a 429 followed
by a 200 for one outcome yields exactly one stored observation, one success,
no failure, one batch write, and attempts at times 100 and 30105 ≥ 100+30000. -/
theorem claimC7_rate_limit_retry :
    (∀ (n : ℕ) (oracle : ℕ → OracleStep) (tid : String) (fuel : ℕ) (st : RunState)
        (v : Option JsNumber),
      n < fuel →
      (∀ i, i < n → fetchStep (oracle (st.requests.length + i)).result =
        FetchStep.retryAfterCooldown) →
      fetchStep (oracle (st.requests.length + n)).result = FetchStep.finish v →
      ∃ ts : List (ℕ × String),
        (fetchTokenPriceT oracle tid fuel st).1.requests = st.requests ++ ts ∧
        (fetchTokenPriceT oracle tid fuel st).2 = v ∧
        ts.length = n + 1 ∧
        (∀ e ∈ ts, e.2 = tid) ∧
        ts.head? = some (st.clock, tid) ∧
        (ts.map Prod.fst).Chain' (fun a b => a + 30000 ≤ b)) ∧
    (collectPricesT c7Oracle 5 77 100 [c7Game]).1.successCount = 1 ∧
    (collectPricesT c7Oracle 5 77 100 [c7Game]).1.failureCount = 0 ∧
    (collectPricesT c7Oracle 5 77 100 [c7Game]).1.requestCount = 1 ∧
    (collectPricesT c7Oracle 5 77 100 [c7Game]).1.priceRecords.length = 1 ∧
    (collectPricesT c7Oracle 5 77 100 [c7Game]).1.priceRecords.map (fun r => r.tokenId) =
      ["tok"] ∧
    (collectPricesT c7Oracle 5 77 100 [c7Game]).2.length = 1 ∧
    (collectPricesT c7Oracle 5 77 100 [c7Game]).1.requests.map Prod.fst = [100, 30105] := by
  refine ⟨?_, by decide, by decide, by decide, by decide, by decide, by decide, by decide⟩
  intro n oracle tid fuel st v hfuel h429 hfin
  exact fetchT_retry_chain n oracle tid fuel st v hfuel h429 hfin

/-- Concrete instantiation of the universally-quantified part of
`claimC7_rate_limit_retry`: one 429 then one success, starting from the fresh
state at time 100. -/
theorem claimC7_witness :
    ∃ ts : List (ℕ × String),
      (fetchTokenPriceT c7Oracle "tok" 5 (initRunState 100)).1.requests =
        (initRunState 100).requests ++ ts ∧
      (fetchTokenPriceT c7Oracle "tok" 5 (initRunState 100)).2 =
        some (jsParseFloat "0.65") ∧
      ts.length = 2 ∧
      (∀ e ∈ ts, e.2 = "tok") ∧
      ts.head? = some (100, "tok") ∧
      (ts.map Prod.fst).Chain' (fun a b => a + 30000 ≤ b) := by
  have h429 : ∀ i, i < 1 →
      fetchStep (c7Oracle ((initRunState 100).requests.length + i)).result =
        FetchStep.retryAfterCooldown := by
    intro i hi
    have hi0 : i = 0 := by omega
    subst hi0
    rfl
  have hfin : fetchStep (c7Oracle ((initRunState 100).requests.length + 1)).result =
      FetchStep.finish (some (jsParseFloat "0.65")) := rfl
  exact claimC7_rate_limit_retry.1 1 c7Oracle "tok" 5 (initRunState 100)
    (some (jsParseFloat "0.65")) (by omega) h429 hfin
